import Mathlib

/-
  Verification development for the business-loss dashboard repository.

  The definitions below are a shallow embedding of the data pipeline in
  src/streamlit_business_loss_app.py and src/pages/stn.py:
  pure Python string/number manipulation becomes Lean functions on
  List Char / String / Rat, pandas data frames become lists of records,
  and the pandas join/groupby/dedup operations are translated step by
  step.  Floating-point arithmetic is modelled over the rationals.
-/

/-! ## Python string primitives

`str.strip`, `str.replace` and `str.upper` as used by `clean_id` /
`clean_sku`.  `pyReplace` performs left-to-right non-overlapping
replacement of every occurrence, exactly like Python's `str.replace`. -/

/-- Bool-valued prefix test on character lists. -/
def isPre : List Char → List Char → Bool
  | [], _ => true
  | _ :: _, [] => false
  | a :: as, b :: bs => a = b && isPre as bs

/-- Does `pat` occur as a contiguous sublist of `s`? -/
def hasPat (pat : List Char) : List Char → Bool
  | [] => isPre pat []
  | c :: rest => isPre pat (c :: rest) || hasPat pat rest

/-- Worker for `pyReplace`; the fuel argument (initialised to the input
length, which bounds the number of steps) makes the recursion structural. -/
def pyReplaceGo (pat rep : List Char) : Nat → List Char → List Char
  | _, [] => []
  | 0, s => s
  | fuel + 1, c :: rest =>
    if pat ≠ [] ∧ isPre pat (c :: rest) then
      rep ++ pyReplaceGo pat rep fuel (rest.drop (pat.length - 1))
    else
      c :: pyReplaceGo pat rep fuel rest

/-- Python `s.replace(pat, rep)` on character lists: left-to-right,
non-overlapping replacement of every occurrence. -/
def pyReplace (pat rep s : List Char) : List Char :=
  pyReplaceGo pat rep s.length s

/-- Python `s.strip()`: drop whitespace from both ends. -/
def pyStrip (s : List Char) : List Char :=
  ((s.dropWhile Char.isWhitespace).reverse.dropWhile Char.isWhitespace).reverse

/-! ## Identifier normalizers

`clean_id` (src/streamlit_business_loss_app.py lines 119-121):
`str(v).strip().replace(".0", "").replace(".00", "")`.

`clean_sku` (lines 123-125 and src/pages/stn.py lines 40-42):
the same followed by `.upper()`. -/

def cleanId (s : String) : String :=
  ⟨pyReplace ['.', '0', '0'] [] (pyReplace ['.', '0'] [] (pyStrip s.data))⟩

def cleanSku (s : String) : String :=
  ⟨(pyReplace ['.', '0', '0'] [] (pyReplace ['.', '0'] [] (pyStrip s.data))).map
    Char.toUpper⟩

example : cleanId "123.0" = "123" := by decide
example : cleanId " 42600000000000 " = "42600000000000" := by decide
example : cleanId "4.260e13" = "4.260e13" := by decide
example : cleanSku "ab12.0c" = "AB12C" := by decide
example : cleanSku "nan" = "NAN" := by decide
example : cleanId "..00" = ".0" := by decide
example : cleanId ".0" = "" := by decide

/-! ## Rounding

`round`, `Series.round` and `numpy` rounding all use round-half-to-even
("banker's rounding"); `round(x, 1)` rounds to one decimal place. -/

/-- Round half to even, as Python's builtin `round` and pandas
`Series.round(0)` do. -/
def roundHalfEven (q : ℚ) : ℤ :=
  let f := ⌊q⌋
  let frac := q - (f : ℚ)
  if frac < 1 / 2 then f
  else if 1 / 2 < frac then f + 1
  else if f % 2 = 0 then f else f + 1

/-- `x.round(0)` as a rational-valued operation. -/
def round0 (q : ℚ) : ℚ := (roundHalfEven q : ℚ)

/-- Python `round(x, 1)`. -/
def round1 (q : ℚ) : ℚ := (roundHalfEven (q * 10) : ℚ) / 10

theorem roundHalfEven_intCast (z : ℤ) : roundHalfEven (z : ℚ) = z := by
  simp [roundHalfEven]

theorem round0_zero : round0 0 = 0 := by
  have h : roundHalfEven ((0 : ℤ) : ℚ) = 0 := roundHalfEven_intCast 0
  simp only [Int.cast_zero] at h
  simp [round0, h]

/-! ## Days on hand

`calculate_business_loss` lines 258-262:
`math.ceil(latest_inventory / drr) if drr > 0 else 0`,
and `calculate_warehouse_doh` (src/pages/stn.py lines 179-184):
`math.ceil(Available_Inventory / warehouse_drr) if warehouse_drr > 0 else 0`. -/

def dohOf (latest drr : ℚ) : ℤ :=
  if 0 < drr then ⌈latest / drr⌉ else 0

/-- Warehouse-level DOH from src/pages/stn.py lines 180-184. -/
def warehouseDoh (avail wdrr : ℚ) : ℤ :=
  if 0 < wdrr then ⌈avail / wdrr⌉ else 0

/-! ## Warehouse attribution table (src/pages/stn.py lines 17-23) -/

def WAREHOUSE_DRR_SPLIT : List (String × ℚ) :=
  [("Bilaspur", 36 / 100),
   ("Mumbai B2C", 27 / 100),
   ("Bangalore", 20 / 100),
   ("Kolkata", 17 / 100),
   ("Mumbai B2B", 0)]

/-- `WAREHOUSE_DRR_SPLIT.get(name, 0)` — dictionary lookup with default 0,
as used at src/pages/stn.py lines 175 and 188. -/
def warehouseShare (w : String) : ℚ :=
  ((WAREHOUSE_DRR_SPLIT.lookup w).getD 0)

/-- `warehouse_drr = drr * WAREHOUSE_DRR_SPLIT.get(Company_Name, 0)`
(src/pages/stn.py lines 174-177). -/
def warehouseDrr (drr : ℚ) (w : String) : ℚ :=
  drr * warehouseShare w

/-! ## Wide time-series reshaper (src/streamlit_business_loss_app.py 133-176)

A wide table is the result of `pd.read_csv(url, header=[0,1])`: a list of
(top, sub) header pairs plus data rows aligned with the header, where a
missing cell (pandas NaN) is `none`.  Timestamp parsing
(`pd.to_datetime(.., errors="coerce")`) is modelled by `pyToNat`
over integer-encoded timestamps, with `none` playing NaT; `.dt.date` is
truncation to the calendar day. -/

structure WideTable where
  header : List (String × String)
  rows : List (List (Option String))

structure TidyRow where
  timestamp : Nat
  date : Nat
  variant_id : String
  status : String
  inventory : ℚ
deriving DecidableEq

structure LongRow where
  ts : Option Nat
  variant : String
  field : Option String
  value : Option String
deriving DecidableEq

/-- Python `.lower()` (ASCII). -/
def lowerStr (s : String) : String :=
  ⟨s.data.map Char.toLower⟩

/-- Python `str(x).strip().lower()`, applied to each header label. -/
def normHdr (s : String) : String :=
  ⟨(pyStrip s.data).map Char.toLower⟩

/-- Substring test used for `"unnamed" not in top`. -/
def containsSub (pat s : String) : Bool :=
  hasPat pat.data s.data

/-- Python `.strip("_")`: drop underscores from both ends. -/
def stripUnders (s : String) : String :=
  ⟨((s.data.dropWhile (· = '_')).reverse.dropWhile (· = '_')).reverse⟩

/-- The carry-forward of the renaming loop:
`if "unnamed" not in top and top != "time stamp": last_variant = top`. -/
def nextLast (top' : String) (last : Option String) : Option String :=
  if containsSub "unnamed" top' = false ∧ top' ≠ "time stamp" then some top'
  else last

/-- The name given to one column by the renaming loop (lines 143-148),
as a function of the normalised header pair and the updated carry.
`f"{last_variant}_{sub}" if last_variant else sub` tests Python
truthiness: both `None` and the empty-string carry fall back to the bare
sub-label. -/
def colName (top' sub' : String) (last' : Option String) : String :=
  if sub' = "status" ∨ sub' = "inventory" then
    match last' with
    | some v => if v = "" then sub' else v ++ "_" ++ sub'
    | none => sub'
  else if top' = "time stamp" then "timestamp"
  else stripUnders (top' ++ "_" ++ sub')

/-- The column-renaming loop of `reshape_inventory` (lines 138-148),
carrying forward the last seen variant label. -/
def buildCols : List (String × String) → Option String → List String
  | [], _ => []
  | (top, sub) :: rest, last =>
    let last' := nextLast (normHdr top) last
    colName (normHdr top) (normHdr sub) last' :: buildCols rest last'

def digitsToNat (l : List Char) : Nat :=
  l.foldl (fun n c => n * 10 + (c.toNat - 48)) 0

/-- Parse a decimal natural number (the integer-encoded timestamps of
the model). -/
def pyToNat (s : String) : Option Nat :=
  if s.data ≠ [] ∧ s.data.all (·.isDigit) then some (digitsToNat s.data)
  else none

/-- Parse a (possibly negative) decimal integer; non-numeric → `none`,
matching `pd.to_numeric(errors="coerce")` on integer-formatted cells. -/
def pyToInt (s : String) : Option ℤ :=
  match s.data with
  | '-' :: rest =>
    if rest ≠ [] ∧ rest.all (·.isDigit) then some (-(digitsToNat rest : ℤ))
    else none
  | l =>
    if l ≠ [] ∧ l.all (·.isDigit) then some ((digitsToNat l : ℤ)) else none

def parseTs (o : Option String) : Option Nat :=
  o.bind pyToNat

def dateOf (t : Nat) : Nat := t / 86400

/-- Position of the first column named `x` (the list length if absent),
matching how `df["timestamp"]` selects the renamed timestamp column. -/
def indexOfStr (x : String) : List String → Nat
  | [] => 0
  | c :: rest => if c = x then 0 else indexOfStr x rest + 1

/-- `df.melt(id_vars=["timestamp","date"], ...)` (line 155): one long row
(timestamp, column name, cell value) per data row and per non-id column. -/
def melt (cols : List String) (rows : List (List (Option String))) :
    List (Option Nat × String × Option String) :=
  rows.flatMap fun r =>
    (cols.zip r).filterMap fun cv =>
      if cv.1 = "timestamp" then none
      else some (parseTs (r[indexOfStr "timestamp" cols]?.join), cv.1, cv.2)

/-- Split at the last underscore from the right, working on the reversed
character list: returns (chars before the underscore reading backwards,
chars after).  Worker for `rsplitLast`. -/
def revSplitUnderscore : List Char → Option (List Char × List Char)
  | [] => none
  | c :: rest =>
    if c = '_' then some ([], rest)
    else (revSplitUnderscore rest).map fun p => (c :: p.1, p.2)

/-- `str.rsplit("_", n=1, expand=True)` (line 156): split on the LAST
underscore into (variant_id, field); a string with no underscore yields
field `none`. -/
def rsplitLast (s : String) : String × Option String :=
  match revSplitUnderscore s.data.reverse with
  | none => (s, none)
  | some p => (⟨p.2.reverse⟩, some ⟨p.1.reverse⟩)

example : rsplitLast "a_b_status" = ("a_b", some "status") := by decide
example : rsplitLast "timestamp" = ("timestamp", none) := by decide

/-- `groupby(...)["value"].first()` semantics of `aggfunc="first"`: the
first non-null value of the group, in row order. -/
def firstVal (long : List LongRow) (t : Nat) (v : String) (f : String) :
    Option String :=
  ((long.filter fun l =>
      decide (l.ts = some t ∧ l.variant = v ∧ l.field = some f)).filterMap
    (·.value)).head?

def parseNum (o : Option String) : ℚ :=
  ((o.bind pyToInt).map fun z => (z : ℚ)).getD 0

/-- `pivot_table(index=["timestamp","date","variant_id"], columns="field",
values="value", aggfunc="first")` (lines 159-168), followed by the
numeric coercion of `inventory` (missing/non-numeric → 0) and the
stringification plus lower-casing of `status` (a missing status pivots to
NaN, which `astype(str)` renders as "nan").  Groups with a NaT timestamp
are dropped, as `pivot_table` drops index levels containing NaN; the
row order abstracts the sorted pivot index. -/
def pivotTidy (long : List LongRow) : List TidyRow :=
  ((long.filterMap fun l => l.ts.map fun t => (t, l.variant)).dedup).map
    fun p =>
      { timestamp := p.1
        date := dateOf p.1
        variant_id := p.2
        status := lowerStr ((firstVal long p.1 p.2 "status").getD "nan")
        inventory := parseNum (firstVal long p.1 p.2 "inventory") }

/-- Inclusive date-range filter (lines 171-174). -/
def keepDate (sd ed : Option Nat) (d : Nat) : Bool :=
  (match sd with | some s => decide (s ≤ d) | none => true) &&
  (match ed with | some e => decide (d ≤ e) | none => true)

/-- `reshape_inventory` (src/streamlit_business_loss_app.py 133-176). -/
def reshape_inventory (w : WideTable) (sd ed : Option Nat) : List TidyRow :=
  let cols := buildCols w.header none
  let long := (melt cols w.rows).map fun x =>
    let p := rsplitLast x.2.1
    { ts := x.1, variant := p.1, field := p.2, value := x.2.2 : LongRow }
  (pivotTidy long).filter fun r => keepDate sd ed r.date

/-! ## Metric derivation engine (src/streamlit_business_loss_app.py 181-297)

The ARR/DRR reference is modelled post-`read_csv`: one record per sheet
row with raw identifier strings and numeric-or-NaN (`Option ℚ`) drr/asp
cells.  The B2B side enters as the `(sku, b2b_inventory)` pairs of
`b2b_latest` (lines 228-237); the metadata enrichment columns are
presentation-only and not needed by any claim.  The presentation-only
columns `product_title_clean` and `variant_label` are likewise omitted. -/

structure ArrDrrRow where
  variant_id : String
  sku : String
  product_title : String
  drr : Option ℚ
  asp : Option ℚ
deriving DecidableEq

/-- Lines 198-199: `clean_id` / `clean_sku` applied to the reference. -/
def cleanArr (a : ArrDrrRow) : ArrDrrRow :=
  { a with variant_id := cleanId a.variant_id, sku := cleanSku a.sku }

structure B2BRow where
  sku : String
  b2b_inventory : ℚ
deriving DecidableEq

/-- Line 236: `b2b_latest["sku"].apply(clean_sku)`. -/
def cleanB2B (r : B2BRow) : B2BRow :=
  { r with sku := cleanSku r.sku }

/-- One row of the out-of-stock/latest-inventory frame of lines 189-192,
after `clean_id` is applied to its variant_id column (line 200). -/
structure BaseRow where
  variant_id : String
  days_out_of_stock : Nat
  latest_inventory : ℚ
deriving DecidableEq

/-- Lines 190-191: stable sort by timestamp then `tail(1)` per variant —
the last row, in input order, among those carrying the maximal timestamp.
A variant with no observation contributes 0 via the outer-merge `fillna`. -/
def latestInv (rows : List TidyRow) (v : String) : ℚ :=
  ((rows.filter fun r => decide (r.variant_id = v)).foldl
    (fun acc r =>
      match acc with
      | none => some r
      | some b => if b.timestamp ≤ r.timestamp then some r else some b)
    none).elim 0 (·.inventory)

/-- Lines 189-192 and 200: per-variant out-of-stock day count (rows with
inventory == 0), latest inventory, outer-merged over all observed
variants with `fillna(0)`, variant_id then normalised by `clean_id`.
The dedup order abstracts the sorted groupby/merge keys. -/
def reportBase (tidy : List TidyRow) : List BaseRow :=
  ((tidy.map (·.variant_id)).dedup).map fun v =>
    { variant_id := cleanId v
      days_out_of_stock :=
        (tidy.filter fun r => decide (r.variant_id = v ∧ r.inventory = 0)).length
      latest_inventory := latestInv tidy v }

/-- The report after the left merge with the ARR/DRR reference (lines
241-247): drr/asp/product_title still nullable, sku already re-cleaned by
line 247 (`clean_sku` of NaN stringifies to "nan" first). -/
structure MArrRow where
  variant_id : String
  days_out_of_stock : Nat
  latest_inventory : ℚ
  product_title : Option String
  drr : Option ℚ
  asp : Option ℚ
  sku : String
deriving DecidableEq

/-- Lines 241-247: `pd.merge(report, arr_drr[...], on="variant_id",
how="left")` — one output row per matching reference row, or a single
all-NaN row when there is no match — followed by
`report["sku"].apply(clean_sku)`. -/
def mergeArr (base : List BaseRow) (arr : List ArrDrrRow) : List MArrRow :=
  base.flatMap fun b =>
    let ms := arr.filter fun a => decide (a.variant_id = b.variant_id)
    if ms.isEmpty then
      [{ variant_id := b.variant_id
         days_out_of_stock := b.days_out_of_stock
         latest_inventory := b.latest_inventory
         product_title := none
         drr := none
         asp := none
         sku := cleanSku "nan" }]
    else
      ms.map fun a =>
        { variant_id := b.variant_id
          days_out_of_stock := b.days_out_of_stock
          latest_inventory := b.latest_inventory
          product_title := some a.product_title
          drr := a.drr
          asp := a.asp
          sku := cleanSku a.sku }

/-- The fully merged report row after lines 248-252: B2B joined in,
`fillna(0)` and `to_numeric(...).fillna(0)` applied, so drr/asp are
plain rationals (0 where the reference had no value or no match). -/
structure MergedRow where
  variant_id : String
  days_out_of_stock : Nat
  latest_inventory : ℚ
  drr : ℚ
  asp : ℚ
  sku : String
  b2b_inventory : ℚ
deriving DecidableEq

/-- Lines 248-252: `pd.merge(report, b2b_enriched, on="sku",
how="left").fillna(0)` plus the numeric coercion of drr/asp/latest. -/
def mergeB2B (rows : List MArrRow) (b2b : List B2BRow) : List MergedRow :=
  rows.flatMap fun m =>
    let ms := b2b.filter fun r => decide (r.sku = m.sku)
    let mk := fun (inv : ℚ) =>
      { variant_id := m.variant_id
        days_out_of_stock := m.days_out_of_stock
        latest_inventory := m.latest_inventory
        drr := m.drr.getD 0
        asp := m.asp.getD 0
        sku := m.sku
        b2b_inventory := inv : MergedRow }
    if ms.isEmpty then [mk 0] else ms.map fun r => mk r.b2b_inventory

/-- One row of the returned report (columns used by the claims; the final
`fillna(0)` of line 297 is a no-op on them). -/
structure ReportRow where
  variant_id : String
  days_out_of_stock : Nat
  latest_inventory : ℚ
  sku : String
  b2b_inventory : ℚ
  drr : ℚ
  asp : ℚ
  business_loss : ℚ
  doh : ℤ
  qty_misses : ℚ
  on_shelf_availability : ℚ
deriving DecidableEq

/-- Lines 265-268: `(end_date - start_date).days + 1` when both dates are
given, else 1. -/
def totalDays : Option Nat → Option Nat → ℤ
  | some s, some e => (e : ℤ) - (s : ℤ) + 1
  | _, _ => 1

/-- Lines 254-292: the per-row metric computation.  business_loss, doh and
qty_misses use the unrounded drr; the report's drr column is rounded
afterwards (line 291); days_out_of_stock is an integer count so its
`.round(0)` (line 292) is the identity. -/
def computeRow (m : MergedRow) (total_days : ℤ) : ReportRow :=
  { variant_id := m.variant_id
    days_out_of_stock := m.days_out_of_stock
    latest_inventory := m.latest_inventory
    sku := m.sku
    b2b_inventory := m.b2b_inventory
    asp := m.asp
    business_loss := (m.days_out_of_stock : ℚ) * m.drr * m.asp
    doh := dohOf m.latest_inventory m.drr
    qty_misses := round0 (m.drr * (m.days_out_of_stock : ℚ))
    on_shelf_availability :=
      if 0 < total_days then
        round1 ((1 - (m.days_out_of_stock : ℚ) / (total_days : ℚ)) * 100)
      else 0
    drr := round0 m.drr }

/-- Line 295: `drop_duplicates(subset=['sku'], keep='first')`. -/
def dedupBySku : List ReportRow → List String → List ReportRow
  | [], _ => []
  | r :: rs, seen =>
    if r.sku ∈ seen then dedupBySku rs seen
    else r :: dedupBySku rs (r.sku :: seen)

/-- `calculate_business_loss` (src/streamlit_business_loss_app.py
181-297), modelled from the reshaped inventory side by side with the
already-parsed ARR/DRR reference rows and the `(sku, b2b_inventory)`
pairs extracted from the B2B sheet. -/
def calculate_business_loss (w : WideTable) (arr : List ArrDrrRow)
    (b2b : List B2BRow) (sd ed : Option Nat) : List ReportRow :=
  let tidy := (reshape_inventory w sd ed).filter fun r =>
    decide (r.status = "active")
  let merged :=
    mergeB2B (mergeArr (reportBase tidy) (arr.map cleanArr)) (b2b.map cleanB2B)
  dedupBySku (merged.map fun m => computeRow m (totalDays sd ed)) []

/-! ## Supporting lemmas about the string primitives -/

theorem isPre_of_append (p q s : List Char) (h : isPre (p ++ q) s = true) :
    isPre p s = true := by
  induction p generalizing s with
  | nil => rfl
  | cons a as ih =>
    cases s with
    | nil => simp [isPre] at h
    | cons b bs =>
      simp only [List.cons_append, isPre, Bool.and_eq_true, decide_eq_true_eq] at h ⊢
      exact ⟨h.1, ih bs h.2⟩

theorem hasPat_cons (pat : List Char) (c : Char) (rest : List Char) :
    hasPat pat (c :: rest) = (isPre pat (c :: rest) || hasPat pat rest) := rfl

theorem hasPat_mono (p q s : List Char) (h : hasPat p s = false) :
    hasPat (p ++ q) s = false := by
  induction s with
  | nil =>
    simp only [hasPat] at h ⊢
    cases hp : isPre (p ++ q) [] with
    | false => rfl
    | true => exact absurd (isPre_of_append p q [] hp) (by simp [h])
  | cons c rest ih =>
    rw [hasPat_cons] at h ⊢
    simp only [Bool.or_eq_false_iff] at h ⊢
    refine ⟨?_, ih h.2⟩
    cases hp : isPre (p ++ q) (c :: rest) with
    | false => rfl
    | true => exact absurd (isPre_of_append p q _ hp) (by simp [h.1])

theorem pyReplaceGo_no_occ (pat rep : List Char) (fuel : Nat) (s : List Char)
    (h : hasPat pat s = false) : pyReplaceGo pat rep fuel s = s := by
  induction fuel generalizing s with
  | zero => cases s <;> rfl
  | succ n ih =>
    cases s with
    | nil => rfl
    | cons c rest =>
      rw [hasPat_cons] at h
      simp only [Bool.or_eq_false_iff] at h
      rw [pyReplaceGo, if_neg]
      · rw [ih rest h.2]
      · intro hcon
        simp [h.1] at hcon

theorem pyReplace_no_occ (pat rep s : List Char) (h : hasPat pat s = false) :
    pyReplace pat rep s = s :=
  pyReplaceGo_no_occ pat rep s.length s h

/-- C2 counterexample input: `clean_id` / `clean_sku` do not parse
scientific notation, so the spec's normalizer-equivalence triple fails at
its own example. -/
theorem c2_counterexample :
    cleanId "4.260e13" ≠ cleanId "42600000000000" ∧
    cleanSku "4.260e13" ≠ cleanSku "42600000000000" := by decide

/-- C2 (amended): the normalizers strip surrounding whitespace and delete
the literal substrings ".0" then ".00" (the SKU variant also uppercases);
they perform no decimal/scientific-notation parsing and no rounding.
Hence the whitespace equivalence holds and a trailing-".0" integer is
truncated, but "4.260e13" is returned unchanged and differs from
"42600000000000". -/
theorem c2_amended :
    cleanId " 42600000000000 " = cleanId "42600000000000" ∧
    cleanId "42600000000000" = "42600000000000" ∧
    cleanId "4.260e13" = "4.260e13" ∧
    cleanId "123.0" = "123" ∧
    cleanSku " 42600000000000 " = cleanSku "42600000000000" ∧
    cleanSku "4.260e13" = "4.260E13" := by decide

/-- C6 counterexample input: the normalizers are not idempotent on
"..00" — one pass yields ".0", a second pass yields "". -/
theorem c6_counterexample :
    cleanId (cleanId "..00") ≠ cleanId "..00" ∧
    cleanSku (cleanSku "..00") ≠ cleanSku "..00" := by decide

theorem pyReplaceGo_nil_length_le (pat : List Char) :
    ∀ (fuel : Nat) (s : List Char),
      (pyReplaceGo pat [] fuel s).length ≤ s.length := by
  intro fuel
  induction fuel with
  | zero => intro s; cases s <;> simp [pyReplaceGo]
  | succ n ih =>
    intro s
    cases s with
    | nil => simp [pyReplaceGo]
    | cons c rest =>
      rw [pyReplaceGo]
      by_cases hm : pat ≠ [] ∧ isPre pat (c :: rest)
      · rw [if_pos hm, List.nil_append]
        have h1 := ih (rest.drop (pat.length - 1))
        have h2 : (rest.drop (pat.length - 1)).length ≤ rest.length := by
          rw [List.length_drop]; omega
        simp only [List.length_cons]
        omega
      · rw [if_neg hm]
        simp only [List.length_cons]
        exact Nat.succ_le_succ (ih rest)

theorem pyReplaceGo_nil_length_lt (pat : List Char) (hp : pat ≠ []) :
    ∀ (fuel : Nat) (s : List Char), s.length ≤ fuel → hasPat pat s = true →
      (pyReplaceGo pat [] fuel s).length < s.length := by
  intro fuel
  induction fuel with
  | zero =>
    intro s hlen hpat
    have hs : s = [] := List.length_eq_zero.mp (Nat.le_zero.mp hlen)
    subst hs
    cases pat with
    | nil => exact absurd rfl hp
    | cons a as => simp [hasPat, isPre] at hpat
  | succ n ih =>
    intro s hlen hpat
    cases s with
    | nil =>
      cases pat with
      | nil => exact absurd rfl hp
      | cons a as => simp [hasPat, isPre] at hpat
    | cons c rest =>
      rw [pyReplaceGo]
      by_cases hm : pat ≠ [] ∧ isPre pat (c :: rest)
      · rw [if_pos hm, List.nil_append]
        have h1 := pyReplaceGo_nil_length_le pat n (rest.drop (pat.length - 1))
        have h2 : (rest.drop (pat.length - 1)).length ≤ rest.length := by
          rw [List.length_drop]; omega
        simp only [List.length_cons]
        omega
      · rw [if_neg hm]
        rw [hasPat_cons] at hpat
        have hiP : isPre pat (c :: rest) = false := by
          cases hi : isPre pat (c :: rest)
          · rfl
          · exact absurd ⟨hp, hi⟩ hm
        rw [hiP, Bool.false_or] at hpat
        have hr : rest.length ≤ n := by
          simp only [List.length_cons] at hlen; omega
        have h3 := ih rest hr hpat
        simp only [List.length_cons]
        omega

theorem pyStrip_length_le (d : List Char) : (pyStrip d).length ≤ d.length := by
  have h1 : (d.dropWhile Char.isWhitespace).length ≤ d.length :=
    (List.dropWhile_suffix _).length_le
  have h2 : ((d.dropWhile Char.isWhitespace).reverse.dropWhile
      Char.isWhitespace).length ≤ (d.dropWhile Char.isWhitespace).reverse.length :=
    (List.dropWhile_suffix _).length_le
  rw [List.length_reverse] at h2
  rw [pyStrip, List.length_reverse]
  exact le_trans h2 h1

theorem pyStrip_eq_of_length (d : List Char)
    (h : (pyStrip d).length = d.length) : pyStrip d = d := by
  have ha : (d.dropWhile Char.isWhitespace).length ≤ d.length :=
    (List.dropWhile_suffix _).length_le
  have hb : ((d.dropWhile Char.isWhitespace).reverse.dropWhile
      Char.isWhitespace).length ≤ (d.dropWhile Char.isWhitespace).reverse.length :=
    (List.dropWhile_suffix _).length_le
  rw [List.length_reverse] at hb
  have hlen : ((d.dropWhile Char.isWhitespace).reverse.dropWhile
      Char.isWhitespace).length = d.length := by
    rw [pyStrip, List.length_reverse] at h
    exact h
  have haeq : (d.dropWhile Char.isWhitespace).length = d.length :=
    le_antisymm ha (by omega)
  have had : d.dropWhile Char.isWhitespace = d :=
    (List.dropWhile_suffix _).eq_of_length haeq
  have hbeq : (d.dropWhile Char.isWhitespace).reverse.dropWhile
      Char.isWhitespace = (d.dropWhile Char.isWhitespace).reverse :=
    (List.dropWhile_suffix _).eq_of_length
      (by rw [List.length_reverse, haeq, hlen])
  rw [pyStrip, hbeq, had, List.reverse_reverse]

/-- `clean_id` fixes a string exactly when the string needs no stripping
and contains no ".0" occurrence: sufficiency is direct, and necessity
follows because stripping and replacement-by-empty can only shorten the
string, strictly so when they act. -/
theorem cleanId_fixed_iff (y : String) :
    cleanId y = y ↔
      pyStrip y.data = y.data ∧ hasPat ['.', '0'] y.data = false := by
  constructor
  · intro h
    have hd : pyReplace ['.', '0', '0'] []
        (pyReplace ['.', '0'] [] (pyStrip y.data)) = y.data :=
      congrArg String.data h
    have hlen3 : (pyReplace ['.', '0', '0'] []
        (pyReplace ['.', '0'] [] (pyStrip y.data))).length = y.data.length :=
      congrArg List.length hd
    have le3 : (pyReplace ['.', '0', '0'] []
        (pyReplace ['.', '0'] [] (pyStrip y.data))).length ≤
        (pyReplace ['.', '0'] [] (pyStrip y.data)).length :=
      pyReplaceGo_nil_length_le _ _ _
    have le2 : (pyReplace ['.', '0'] [] (pyStrip y.data)).length ≤
        (pyStrip y.data).length :=
      pyReplaceGo_nil_length_le _ _ _
    have le1 : (pyStrip y.data).length ≤ y.data.length := pyStrip_length_le _
    have e1 : (pyStrip y.data).length = y.data.length := by omega
    have hstrip : pyStrip y.data = y.data := pyStrip_eq_of_length _ e1
    refine ⟨hstrip, ?_⟩
    cases hh : hasPat ['.', '0'] y.data with
    | false => rfl
    | true =>
      exfalso
      have hlt : (pyReplace ['.', '0'] [] (pyStrip y.data)).length <
          (pyStrip y.data).length :=
        pyReplaceGo_nil_length_lt ['.', '0'] (by decide) (pyStrip y.data).length
          (pyStrip y.data) (le_refl _) (by rw [hstrip]; exact hh)
      omega
  · intro h
    obtain ⟨h1, h2⟩ := h
    have h3 : hasPat ['.', '0', '0'] y.data = false :=
      hasPat_mono ['.', '0'] ['0'] _ h2
    show (⟨pyReplace ['.', '0', '0'] []
      (pyReplace ['.', '0'] [] (pyStrip y.data))⟩ : String) = y
    rw [h1, pyReplace_no_occ _ _ _ h2, pyReplace_no_occ _ _ _ h3]

/-- `clean_sku` fixes a string exactly when it needs no stripping,
contains no ".0" occurrence, and is already uppercase. -/
theorem cleanSku_fixed_iff (y : String) :
    cleanSku y = y ↔
      pyStrip y.data = y.data ∧ hasPat ['.', '0'] y.data = false ∧
      y.data.map Char.toUpper = y.data := by
  constructor
  · intro h
    have hd : (pyReplace ['.', '0', '0'] []
        (pyReplace ['.', '0'] [] (pyStrip y.data))).map Char.toUpper =
        y.data :=
      congrArg String.data h
    have hlen3 : (pyReplace ['.', '0', '0'] []
        (pyReplace ['.', '0'] [] (pyStrip y.data))).length = y.data.length := by
      have := congrArg List.length hd
      rwa [List.length_map] at this
    have le3 : (pyReplace ['.', '0', '0'] []
        (pyReplace ['.', '0'] [] (pyStrip y.data))).length ≤
        (pyReplace ['.', '0'] [] (pyStrip y.data)).length :=
      pyReplaceGo_nil_length_le _ _ _
    have le2 : (pyReplace ['.', '0'] [] (pyStrip y.data)).length ≤
        (pyStrip y.data).length :=
      pyReplaceGo_nil_length_le _ _ _
    have le1 : (pyStrip y.data).length ≤ y.data.length := pyStrip_length_le _
    have e1 : (pyStrip y.data).length = y.data.length := by omega
    have hstrip : pyStrip y.data = y.data := pyStrip_eq_of_length _ e1
    have hpat : hasPat ['.', '0'] y.data = false := by
      cases hh : hasPat ['.', '0'] y.data with
      | false => rfl
      | true =>
        exfalso
        have hlt : (pyReplace ['.', '0'] [] (pyStrip y.data)).length <
            (pyStrip y.data).length :=
          pyReplaceGo_nil_length_lt ['.', '0'] (by decide)
            (pyStrip y.data).length (pyStrip y.data) (le_refl _)
            (by rw [hstrip]; exact hh)
        omega
    have hs2 : pyReplace ['.', '0'] [] (pyStrip y.data) = y.data := by
      rw [hstrip]
      exact pyReplace_no_occ _ _ _ hpat
    have hs3 : pyReplace ['.', '0', '0'] []
        (pyReplace ['.', '0'] [] (pyStrip y.data)) = y.data := by
      rw [hs2]
      exact pyReplace_no_occ _ _ _ (hasPat_mono ['.', '0'] ['0'] _ hpat)
    refine ⟨hstrip, hpat, ?_⟩
    rw [hs3] at hd
    exact hd
  · intro h
    obtain ⟨h1, h2, h3⟩ := h
    have h4 : hasPat ['.', '0', '0'] y.data = false :=
      hasPat_mono ['.', '0'] ['0'] _ h2
    show (⟨(pyReplace ['.', '0', '0'] []
      (pyReplace ['.', '0'] [] (pyStrip y.data))).map Char.toUpper⟩ :
        String) = y
    rw [h1, pyReplace_no_occ _ _ _ h2, pyReplace_no_occ _ _ _ h4, h3]

/-- C6 (amended): idempotence fails in general (see the counterexample);
a second pass of `clean_id` fixes the once-normalized string exactly when
that string needs no further stripping and contains no ".0" occurrence
(for `clean_sku`, also exactly when it is additionally already
uppercase) — conditions holding for ordinary digit-string identifiers. -/
theorem c6_amended (x : String) :
    (cleanId (cleanId x) = cleanId x ↔
      pyStrip (cleanId x).data = (cleanId x).data ∧
      hasPat ['.', '0'] (cleanId x).data = false) ∧
    (cleanSku (cleanSku x) = cleanSku x ↔
      pyStrip (cleanSku x).data = (cleanSku x).data ∧
      hasPat ['.', '0'] (cleanSku x).data = false ∧
      (cleanSku x).data.map Char.toUpper = (cleanSku x).data) :=
  ⟨cleanId_fixed_iff (cleanId x), cleanSku_fixed_iff (cleanSku x)⟩

/-- Witness for C6: the amended equivalence applies to the spec's own
example identifier, in both directions. -/
theorem c6_witness :
    cleanId (cleanId "42600000000000") = cleanId "42600000000000" ∧
    pyStrip (cleanSku (cleanSku "ABC")).data = (cleanSku (cleanSku "ABC")).data :=
  ⟨(c6_amended "42600000000000").1.mpr ⟨by decide, by decide⟩,
   ((c6_amended "ABC").2.mp (by decide)).1⟩

/-- C7: the warehouse demand shares sum to exactly 1 (Mumbai B2B carrying
share 0), and an unknown warehouse name looks up to share 0.0 — not an
error — so its attributed demand `warehouse_drr = drr * share` is 0. -/
theorem c7_attribution :
    (WAREHOUSE_DRR_SPLIT.map Prod.snd).sum = 1 ∧
    warehouseShare "Mumbai B2B" = 0 ∧
    (∀ w : String, (∀ p ∈ WAREHOUSE_DRR_SPLIT, p.1 ≠ w) →
      warehouseShare w = 0 ∧ ∀ drr : ℚ, warehouseDrr drr w = 0) := by
  refine ⟨by norm_num [WAREHOUSE_DRR_SPLIT], by with_unfolding_all decide, ?_⟩
  intro w h
  have h1 : ¬(w = "Bilaspur") := fun hh =>
    h ("Bilaspur", 36 / 100) (by simp [WAREHOUSE_DRR_SPLIT]) hh.symm
  have h2 : ¬(w = "Mumbai B2C") := fun hh =>
    h ("Mumbai B2C", 27 / 100) (by simp [WAREHOUSE_DRR_SPLIT]) hh.symm
  have h3 : ¬(w = "Bangalore") := fun hh =>
    h ("Bangalore", 20 / 100) (by simp [WAREHOUSE_DRR_SPLIT]) hh.symm
  have h4 : ¬(w = "Kolkata") := fun hh =>
    h ("Kolkata", 17 / 100) (by simp [WAREHOUSE_DRR_SPLIT]) hh.symm
  have h5 : ¬(w = "Mumbai B2B") := fun hh =>
    h ("Mumbai B2B", 0) (by simp [WAREHOUSE_DRR_SPLIT]) hh.symm
  have hshare : warehouseShare w = 0 := by
    have b1 : (w == "Bilaspur") = false := beq_eq_false_iff_ne.mpr h1
    have b2 : (w == "Mumbai B2C") = false := beq_eq_false_iff_ne.mpr h2
    have b3 : (w == "Bangalore") = false := beq_eq_false_iff_ne.mpr h3
    have b4 : (w == "Kolkata") = false := beq_eq_false_iff_ne.mpr h4
    have b5 : (w == "Mumbai B2B") = false := beq_eq_false_iff_ne.mpr h5
    simp [warehouseShare, WAREHOUSE_DRR_SPLIT, List.lookup, b1, b2, b3, b4, b5]
  exact ⟨hshare, fun drr => by simp [warehouseDrr, hshare]⟩

/-- Witness for C7: an unknown warehouse name yields share 0 and zero
attributed demand. -/
theorem c7_witness :
    warehouseShare "Chennai" = 0 ∧ warehouseDrr 5 "Chennai" = 0 := by
  have h := c7_attribution.2.2 "Chennai" (by decide)
  exact ⟨h.1, h.2 5⟩

/-- C4: days on hand is `ceil(latest_inventory / drr)` when drr > 0 and
the guarded sentinel 0 when drr = 0 (no division is performed); in
particular inventory 0 with drr 10 gives 0.  The same guard protects the
warehouse-level DOH of `calculate_warehouse_doh`, and the report's doh
column is exactly this function of the merged row. -/
theorem c4_days_on_hand :
    (∀ l d : ℚ, 0 < d → dohOf l d = ⌈l / d⌉) ∧
    (∀ l : ℚ, dohOf l 0 = 0) ∧
    dohOf 0 10 = 0 ∧
    (∀ a : ℚ, warehouseDoh a 0 = 0) ∧
    (∀ (m : MergedRow) (td : ℤ),
      (computeRow m td).doh = dohOf m.latest_inventory m.drr) := by
  refine ⟨fun l d hd => if_pos hd, fun l => if_neg (by norm_num), ?_,
    fun a => if_neg (by norm_num), fun m td => rfl⟩
  show dohOf 0 10 = 0
  rw [dohOf, if_pos (by norm_num)]
  norm_num

/-- Witness for C4: the ceiling branch at inventory 7, drr 2. -/
theorem c4_witness : dohOf 0 10 = 0 ∧ dohOf 7 2 = ⌈(7 : ℚ) / 2⌉ :=
  ⟨c4_days_on_hand.2.2.1, c4_days_on_hand.1 7 2 (by norm_num)⟩

/-! ## Membership lemmas for the pipeline stages -/

theorem mem_dedupBySku (l : List ReportRow) (seen : List String) (r : ReportRow)
    (h : r ∈ dedupBySku l seen) : r ∈ l := by
  induction l generalizing seen with
  | nil => exact absurd h (by simp [dedupBySku])
  | cons a rest ih =>
    rw [dedupBySku] at h
    by_cases hs : a.sku ∈ seen
    · rw [if_pos hs] at h
      exact List.mem_cons_of_mem a (ih _ h)
    · rw [if_neg hs] at h
      rcases List.mem_cons.mp h with h1 | h1
      · exact h1 ▸ List.mem_cons_self a rest
      · exact List.mem_cons_of_mem a (ih _ h1)

theorem mem_mergeB2B (rows : List MArrRow) (b2b : List B2BRow) (m2 : MergedRow)
    (h : m2 ∈ mergeB2B rows b2b) :
    ∃ m ∈ rows, m2.variant_id = m.variant_id ∧
      m2.days_out_of_stock = m.days_out_of_stock ∧
      m2.latest_inventory = m.latest_inventory ∧
      m2.drr = m.drr.getD 0 ∧ m2.asp = m.asp.getD 0 ∧ m2.sku = m.sku := by
  simp only [mergeB2B, List.mem_flatMap] at h
  obtain ⟨m, hm, hmem⟩ := h
  refine ⟨m, hm, ?_⟩
  by_cases he : (b2b.filter fun r => decide (r.sku = m.sku)).isEmpty
  · rw [if_pos he] at hmem
    simp only [List.mem_singleton] at hmem
    subst hmem
    exact ⟨rfl, rfl, rfl, rfl, rfl, rfl⟩
  · rw [if_neg he] at hmem
    simp only [List.mem_map] at hmem
    obtain ⟨rb, _, hrm⟩ := hmem
    subst hrm
    exact ⟨rfl, rfl, rfl, rfl, rfl, rfl⟩

theorem mem_mergeArr (base : List BaseRow) (arr : List ArrDrrRow) (m : MArrRow)
    (h : m ∈ mergeArr base arr) :
    ∃ b ∈ base, m.variant_id = b.variant_id ∧
      m.days_out_of_stock = b.days_out_of_stock ∧
      m.latest_inventory = b.latest_inventory ∧
      ((m.drr = none ∧ m.asp = none ∧ m.sku = cleanSku "nan" ∧
        ∀ a ∈ arr, a.variant_id ≠ b.variant_id) ∨
       (∃ a ∈ arr, a.variant_id = b.variant_id ∧ m.drr = a.drr ∧
        m.asp = a.asp ∧ m.sku = cleanSku a.sku)) := by
  simp only [mergeArr, List.mem_flatMap] at h
  obtain ⟨b, hb, hmem⟩ := h
  refine ⟨b, hb, ?_⟩
  by_cases he : (arr.filter fun a => decide (a.variant_id = b.variant_id)).isEmpty
  · rw [if_pos he] at hmem
    simp only [List.mem_singleton] at hmem
    subst hmem
    refine ⟨rfl, rfl, rfl, Or.inl ⟨rfl, rfl, rfl, ?_⟩⟩
    intro a ha hcon
    have : (arr.filter fun a => decide (a.variant_id = b.variant_id)) = [] :=
      List.isEmpty_iff.mp he
    have hmem2 : a ∈ arr.filter fun a => decide (a.variant_id = b.variant_id) :=
      List.mem_filter.mpr ⟨ha, by simp [hcon]⟩
    rw [this] at hmem2
    exact absurd hmem2 (List.not_mem_nil a)
  · rw [if_neg he] at hmem
    simp only [List.mem_map] at hmem
    obtain ⟨a, haf, hrm⟩ := hmem
    have haf2 := List.mem_filter.mp haf
    subst hrm
    exact ⟨rfl, rfl, rfl, Or.inr ⟨a, haf2.1, by simpa using haf2.2, rfl, rfl, rfl⟩⟩

/-- The tidy, active-filtered inventory feeding the merge stages. -/
def activeTidy (w : WideTable) (sd ed : Option Nat) : List TidyRow :=
  (reshape_inventory w sd ed).filter fun r => decide (r.status = "active")

/-- The fully merged frame of `calculate_business_loss` just before the
metric computation. -/
def mergedStage (w : WideTable) (arr : List ArrDrrRow) (b2b : List B2BRow)
    (sd ed : Option Nat) : List MergedRow :=
  mergeB2B (mergeArr (reportBase (activeTidy w sd ed)) (arr.map cleanArr))
    (b2b.map cleanB2B)

theorem calc_eq_stages (w : WideTable) (arr : List ArrDrrRow) (b2b : List B2BRow)
    (sd ed : Option Nat) :
    calculate_business_loss w arr b2b sd ed =
      dedupBySku ((mergedStage w arr b2b sd ed).map
        fun m => computeRow m (totalDays sd ed)) [] := rfl

theorem mem_calc (w : WideTable) (arr : List ArrDrrRow) (b2b : List B2BRow)
    (sd ed : Option Nat) (r : ReportRow)
    (h : r ∈ calculate_business_loss w arr b2b sd ed) :
    ∃ m ∈ mergedStage w arr b2b sd ed, r = computeRow m (totalDays sd ed) := by
  rw [calc_eq_stages] at h
  have h2 := mem_dedupBySku _ _ _ h
  simp only [List.mem_map] at h2
  obtain ⟨m, hm, hmr⟩ := h2
  exact ⟨m, hm, hmr.symm⟩

/-- In the report produced from unmatched-variant rows, drr and asp are
zero: the chain of facts from the merge stages to a final row. -/
theorem calc_unmatched_zero (w : WideTable) (arr : List ArrDrrRow)
    (b2b : List B2BRow) (sd ed : Option Nat) (r : ReportRow)
    (h : r ∈ calculate_business_loss w arr b2b sd ed)
    (hu : ∀ a ∈ arr, cleanId a.variant_id ≠ r.variant_id) :
    r.drr = 0 ∧ r.asp = 0 ∧ r.sku = "NAN" := by
  obtain ⟨m2, hm2, hr⟩ := mem_calc w arr b2b sd ed r h
  obtain ⟨m, hm, hv, _, _, hdrr, hasp, hsku⟩ := mem_mergeB2B _ _ _ hm2
  obtain ⟨b, _, hbv, _, _, hcase⟩ := mem_mergeArr _ _ _ hm
  have hrv : r.variant_id = m.variant_id := by rw [hr]; exact hv
  rcases hcase with ⟨hdn, han, hsn, _⟩ | ⟨a, ha, hav, _, _, _⟩
  · refine ⟨?_, ?_, ?_⟩
    · rw [hr]
      show round0 m2.drr = 0
      rw [hdrr, hdn, Option.getD_none, round0_zero]
    · rw [hr]
      show m2.asp = 0
      rw [hasp, han, Option.getD_none]
    · rw [hr]
      show m2.sku = "NAN"
      rw [hsku, hsn]
      decide
  · obtain ⟨a0, ha0, ha0e⟩ := List.mem_map.mp ha
    exfalso
    refine hu a0 ha0 ?_
    have hce : (cleanArr a0).variant_id = cleanId a0.variant_id := rfl
    rw [hrv, ← hce, ha0e, hav, hbv]

/-! ## Concrete sample inputs for the witness/counterexample theorems -/

/-- A one-variant, one-day inventory sheet (variant "v1", active, out of
stock on its single observation). -/
def sampleWide : WideTable :=
  { header := [("Time Stamp", "unnamed: 0"), ("v1", "Status"), ("unnamed: 1", "Inventory")]
    rows := [[some "0", some "Active", some "0"]] }

/-- A reference sheet matching "v1" with a fractional drr of 0.5 and an
asp of 100. -/
def sampleArr : List ArrDrrRow :=
  [{ variant_id := "v1", sku := "S1", product_title := "P",
     drr := some (1 / 2), asp := some 100 }]

/-- C1 counterexample input: running the pipeline with variant "v1" in
inventory and an empty DRR/ASP reference.  The unmatched row comes back
with drr = 0 and asp = 0 — not a caller-supplied nonzero default — and
`calculate_business_loss` takes no default_drr/default_asp parameters and
emits no is_fallback column at all. -/
theorem c1_counterexample :
    (calculate_business_loss sampleWide [] [] none none).map
      (fun r => (r.variant_id, r.drr, r.asp)) = [("v1", 0, 0)] := by
  with_unfolding_all decide

/-- C1 (amended): a variant present in the reshaped inventory but absent
from the DRR/ASP reference yields a report row with drr = 0 and asp = 0
(the merge leaves NaN, `fillna(0)` and the numeric coercion turn it into
zero); no fallback flag exists. -/
theorem c1_amended (w : WideTable) (arr : List ArrDrrRow) (b2b : List B2BRow)
    (sd ed : Option Nat) :
    ∀ r ∈ calculate_business_loss w arr b2b sd ed,
      (∀ a ∈ arr, cleanId a.variant_id ≠ r.variant_id) →
      r.drr = 0 ∧ r.asp = 0 := by
  intro r hr hu
  have h := calc_unmatched_zero w arr b2b sd ed r hr hu
  exact ⟨h.1, h.2.1⟩

/-- Witness for C1: on the concrete unmatched run, every returned row has
zero drr and asp. -/
theorem c1_witness :
    ((calculate_business_loss sampleWide [] [] none none).all
      fun r => decide (r.drr = 0 ∧ r.asp = 0)) = true := by
  rw [List.all_eq_true]
  intro r hr
  have h := c1_amended sampleWide [] [] none none r hr (by simp)
  simpa using h

/-- C3: a report row's business_loss is exactly
days_out_of_stock * drr * asp of the merged values (days_out_of_stock is
a non-negative count by construction); it vanishes when drr = 0 or
days_out_of_stock = 0, and whenever every reference drr/asp is
non-negative, every row of the returned report has business_loss ≥ 0. -/
theorem c3_business_loss :
    (∀ (m : MergedRow) (td : ℤ),
      (computeRow m td).business_loss =
        (m.days_out_of_stock : ℚ) * m.drr * m.asp ∧
      (m.drr = 0 → (computeRow m td).business_loss = 0) ∧
      (m.days_out_of_stock = 0 → (computeRow m td).business_loss = 0)) ∧
    (∀ (w : WideTable) (arr : List ArrDrrRow) (b2b : List B2BRow)
      (sd ed : Option Nat),
      (∀ a ∈ arr, (∀ q ∈ a.drr, 0 ≤ q) ∧ (∀ q ∈ a.asp, 0 ≤ q)) →
      ∀ r ∈ calculate_business_loss w arr b2b sd ed, 0 ≤ r.business_loss) := by
  constructor
  · intro m td
    refine ⟨rfl, fun h0 => ?_, fun h0 => ?_⟩
    · show (m.days_out_of_stock : ℚ) * m.drr * m.asp = 0
      rw [h0, mul_zero, zero_mul]
    · show (m.days_out_of_stock : ℚ) * m.drr * m.asp = 0
      rw [h0, Nat.cast_zero, zero_mul, zero_mul]
  · intro w arr b2b sd ed hnn r hr
    obtain ⟨m2, hm2, hre⟩ := mem_calc w arr b2b sd ed r hr
    obtain ⟨m, hm, _, _, _, hdrr, hasp, _⟩ := mem_mergeB2B _ _ _ hm2
    obtain ⟨b, _, _, _, _, hcase⟩ := mem_mergeArr _ _ _ hm
    have hd : 0 ≤ m2.drr ∧ 0 ≤ m2.asp := by
      rcases hcase with ⟨hdn, han, _, _⟩ | ⟨a, ha, _, hda, haa, _⟩
      · rw [hdrr, hasp, hdn, han]
        simp
      · obtain ⟨a0, ha0, ha0e⟩ := List.mem_map.mp ha
        have hnn0 := hnn a0 ha0
        have hda0 : a.drr = a0.drr := by rw [← ha0e]; rfl
        have haa0 : a.asp = a0.asp := by rw [← ha0e]; rfl
        constructor
        · rw [hdrr, hda, hda0]
          cases hopt : a0.drr with
          | none => simp
          | some q => simpa using hnn0.1 q (by rw [hopt]; rfl)
        · rw [hasp, haa, haa0]
          cases hopt : a0.asp with
          | none => simp
          | some q => simpa using hnn0.2 q (by rw [hopt]; rfl)
    rw [hre]
    show 0 ≤ (m2.days_out_of_stock : ℚ) * m2.drr * m2.asp
    exact mul_nonneg (mul_nonneg (Nat.cast_nonneg _) hd.1) hd.2

/-- A merged row with zero drr, for exercising the zero case of C3. -/
def sampleZeroDrr : MergedRow :=
  { variant_id := "v1"
    days_out_of_stock := 3
    latest_inventory := 0
    drr := 0
    asp := 100
    sku := "S1"
    b2b_inventory := 0 }

/-- Witness for C3: the zero cases and the pipeline-level non-negativity
on the concrete sample run. -/
theorem c3_witness :
    (computeRow sampleZeroDrr 1).business_loss = 0 ∧
    ((calculate_business_loss sampleWide sampleArr [] none none).all
      fun r => decide (0 ≤ r.business_loss)) = true := by
  constructor
  · exact (c3_business_loss.1 _ 1).2.1 rfl
  · rw [List.all_eq_true]
    intro r hr
    have h := c3_business_loss.2 sampleWide sampleArr [] none none ?_ r hr
    · simpa using h
    · intro a ha
      simp only [sampleArr, List.mem_singleton] at ha
      subst ha
      constructor
      · intro q hq
        simp only [Option.mem_def, Option.some_inj] at hq
        rw [← hq]
        norm_num
      · intro q hq
        simp only [Option.mem_def, Option.some_inj] at hq
        rw [← hq]
        norm_num

/-! ## C9 and C10: the availability divisor and the rounding order -/

theorem round1_of_mul_ten_int (q : ℚ) (z : ℤ) (hq : q * 10 = (z : ℚ)) :
    round1 q = (z : ℚ) / 10 := by
  rw [round1, hq, roundHalfEven_intCast]

/-- C9: the on-shelf-availability divisor is (end - start) + 1 days when
both dates are supplied and 1 otherwise, and the value
round((1 - days_oos/total_days) * 100, 1) is not clamped: with no date
range, one out-of-stock day gives exactly 0 and two or more give a
negative percentage. -/
theorem c9_availability_divisor :
    (∀ s e : Nat, totalDays (some s) (some e) = (e : ℤ) - (s : ℤ) + 1) ∧
    (∀ ed : Option Nat, totalDays none ed = 1) ∧
    (∀ sd : Option Nat, totalDays sd none = 1) ∧
    (∀ (m : MergedRow) (td : ℤ), 0 < td →
      (computeRow m td).on_shelf_availability =
        round1 ((1 - (m.days_out_of_stock : ℚ) / (td : ℚ)) * 100)) ∧
    (∀ m : MergedRow, m.days_out_of_stock = 1 →
      (computeRow m 1).on_shelf_availability = 0) ∧
    (∀ m : MergedRow, 2 ≤ m.days_out_of_stock →
      (computeRow m 1).on_shelf_availability < 0) := by
  have hsome : ∀ s e : Nat, totalDays (some s) (some e) = (e : ℤ) - (s : ℤ) + 1 :=
    fun s e => rfl
  have hnone1 : ∀ ed : Option Nat, totalDays none ed = 1 := by
    intro ed; cases ed <;> rfl
  have hnone2 : ∀ sd : Option Nat, totalDays sd none = 1 := by
    intro sd; cases sd <;> rfl
  have hformula : ∀ (m : MergedRow) (td : ℤ), 0 < td →
      (computeRow m td).on_shelf_availability =
        round1 ((1 - (m.days_out_of_stock : ℚ) / (td : ℚ)) * 100) := by
    intro m td htd
    show (if 0 < td then
      round1 ((1 - (m.days_out_of_stock : ℚ) / (td : ℚ)) * 100) else 0) = _
    rw [if_pos htd]
  have hval : ∀ m : MergedRow,
      (computeRow m 1).on_shelf_availability =
        (1 - (m.days_out_of_stock : ℚ)) * 100 := by
    intro m
    rw [hformula m 1 (by norm_num)]
    rw [round1_of_mul_ten_int _ ((1 - (m.days_out_of_stock : ℤ)) * 1000)
      (by push_cast; ring)]
    push_cast
    ring
  refine ⟨hsome, hnone1, hnone2, hformula, ?_, ?_⟩
  · intro m hd
    rw [hval m, hd]
    norm_num
  · intro m hd
    rw [hval m]
    have h2 : (2 : ℚ) ≤ (m.days_out_of_stock : ℚ) := by exact_mod_cast hd
    nlinarith

/-- A merged row with two out-of-stock days, for the negative-availability
case of C9. -/
def sampleTwoOos : MergedRow :=
  { variant_id := "v2"
    days_out_of_stock := 2
    latest_inventory := 5
    drr := 1
    asp := 10
    sku := "S2"
    b2b_inventory := 0 }

/-- Witness for C9: a concrete date range of 7 days, and with no date
range a two-day stock-out produces a negative availability. -/
theorem c9_witness :
    totalDays (some 3) (some 9) = 7 ∧
    (computeRow sampleTwoOos 1).on_shelf_availability < 0 := by
  constructor
  · rw [c9_availability_divisor.1 3 9]
    norm_num
  · exact c9_availability_divisor.2.2.2.2.2 sampleTwoOos (by norm_num [sampleTwoOos])

/-- C10: business_loss, doh and qty_misses are computed from the
unrounded drr, and only afterwards is the report's drr column rounded;
consequently, on the concrete sample run with drr = 0.5, the returned
report contains a row whose business_loss (50) differs from
days_out_of_stock * drr * asp recomputed from the report's own rounded
columns (1 * 0 * 100 = 0). -/
theorem c10_rounding_mismatch :
    (∀ (m : MergedRow) (td : ℤ),
      (computeRow m td).business_loss =
        (m.days_out_of_stock : ℚ) * m.drr * m.asp ∧
      (computeRow m td).qty_misses =
        round0 (m.drr * (m.days_out_of_stock : ℚ)) ∧
      (computeRow m td).doh = dohOf m.latest_inventory m.drr ∧
      (computeRow m td).drr = round0 m.drr) ∧
    (∃ r ∈ calculate_business_loss sampleWide sampleArr [] none none,
      r.business_loss ≠ (r.days_out_of_stock : ℚ) * r.drr * r.asp) := by
  refine ⟨fun m td => ⟨rfl, rfl, rfl, rfl⟩, ?_⟩
  with_unfolding_all decide

/-! ## C8: the shared "NAN" sku of unmatched variants and the dedup -/

theorem dedupBySku_sku_nodup (l : List ReportRow) (seen : List String) :
    ((dedupBySku l seen).map (fun r => r.sku)).Nodup ∧
    ∀ r ∈ dedupBySku l seen, r.sku ∉ seen := by
  induction l generalizing seen with
  | nil => exact ⟨List.nodup_nil, by simp [dedupBySku]⟩
  | cons a rest ih =>
    rw [dedupBySku]
    by_cases hs : a.sku ∈ seen
    · rw [if_pos hs]
      exact ih seen
    · rw [if_neg hs]
      obtain ⟨ihn, ihm⟩ := ih (a.sku :: seen)
      refine ⟨?_, ?_⟩
      · rw [List.map_cons, List.nodup_cons]
        refine ⟨?_, ihn⟩
        intro hmem
        obtain ⟨r, hr, hre⟩ := List.mem_map.mp hmem
        exact (ihm r hr) (hre ▸ List.mem_cons_self _ _)
      · intro r hr
        rcases List.mem_cons.mp hr with h1 | h1
        · rw [h1]; exact hs
        · exact fun hcon => (ihm r h1) (List.mem_cons_of_mem _ hcon)

theorem countP_eq_le_one_of_nodup (l : List String) (hl : l.Nodup) (x : String) :
    l.countP (fun s => decide (s = x)) ≤ 1 := by
  induction l with
  | nil => simp
  | cons a rest ih =>
    rw [List.countP_cons]
    rcases List.nodup_cons.mp hl with ⟨hna, hnr⟩
    by_cases hax : a = x
    · have hzero : rest.countP (fun s => decide (s = x)) = 0 := by
        rw [List.countP_eq_zero]
        intro s hs
        simp only [decide_eq_true_eq]
        intro he
        exact hna ((he.trans hax.symm) ▸ hs)
      simp [hzero, hax]
    · have hf : (decide (a = x)) = false := by simp [hax]
      simp only [hf, Bool.false_eq_true, if_false, Nat.add_zero]
      exact ih hnr

/-- C8: a variant with no DRR/ASP match gets `clean_sku(NaN) = "NAN"` as
its sku (the stringification happens at line 247, before the fillna of
line 248), and since line 295 deduplicates the final report by sku
keeping the first occurrence, at most one unmatched variant row survives
in the returned report. -/
theorem c8_nan_dedup :
    cleanSku "nan" = "NAN" ∧
    (∀ (base : List BaseRow) (arr : List ArrDrrRow) (m : MArrRow),
      m ∈ mergeArr base (arr.map cleanArr) →
      (∀ a ∈ arr, cleanId a.variant_id ≠ m.variant_id) → m.sku = "NAN") ∧
    (∀ (w : WideTable) (arr : List ArrDrrRow) (b2b : List B2BRow)
      (sd ed : Option Nat),
      ((calculate_business_loss w arr b2b sd ed).countP
        fun r => arr.all fun a => decide (cleanId a.variant_id ≠ r.variant_id))
        ≤ 1) := by
  refine ⟨by decide, ?_, ?_⟩
  · intro base arr m hm hu
    obtain ⟨b, _, hbv, _, _, hcase⟩ := mem_mergeArr _ _ _ hm
    rcases hcase with ⟨_, _, hsn, _⟩ | ⟨a, ha, hav, _, _, _⟩
    · rw [hsn]; decide
    · obtain ⟨a0, ha0, ha0e⟩ := List.mem_map.mp ha
      exfalso
      refine hu a0 ha0 ?_
      have hce : (cleanArr a0).variant_id = cleanId a0.variant_id := rfl
      rw [← hce, ha0e, hav, hbv]
  · intro w arr b2b sd ed
    have hstep1 : ∀ r ∈ calculate_business_loss w arr b2b sd ed,
        (arr.all fun a => decide (cleanId a.variant_id ≠ r.variant_id)) = true →
        r.sku = "NAN" := by
      intro r hr hp
      have hu : ∀ a ∈ arr, cleanId a.variant_id ≠ r.variant_id := by
        intro a ha
        simpa using List.all_eq_true.mp hp a ha
      exact (calc_unmatched_zero w arr b2b sd ed r hr hu).2.2
    have hmono : ((calculate_business_loss w arr b2b sd ed).countP
        fun r => arr.all fun a => decide (cleanId a.variant_id ≠ r.variant_id)) ≤
        ((calculate_business_loss w arr b2b sd ed).countP
          fun r => decide (r.sku = "NAN")) := by
      apply List.countP_mono_left
      intro r hr hp
      simp only [decide_eq_true_eq]
      exact hstep1 r hr hp
    refine le_trans hmono ?_
    have hnd : (((calculate_business_loss w arr b2b sd ed)).map
        (fun r => r.sku)).Nodup := by
      rw [calc_eq_stages]
      exact (dedupBySku_sku_nodup _ []).1
    have hmap : (((calculate_business_loss w arr b2b sd ed)).map
        (fun r => r.sku)).countP (fun s => decide (s = "NAN")) =
        ((calculate_business_loss w arr b2b sd ed).countP
          fun r => decide (r.sku = "NAN")) := by
      rw [List.countP_map]
      rfl
    rw [← hmap]
    exact countP_eq_le_one_of_nodup _ hnd "NAN"

/-- The base row the sample inventory produces, and the all-NaN merged row
it yields against an empty reference. -/
def sampleBase : BaseRow :=
  { variant_id := "v1", days_out_of_stock := 1, latest_inventory := 0 }

def sampleUnmatched : MArrRow :=
  { variant_id := "v1"
    days_out_of_stock := 1
    latest_inventory := 0
    product_title := none
    drr := none
    asp := none
    sku := cleanSku "nan" }

/-- Witness for C8: the concrete unmatched merged row carries sku "NAN",
and the concrete unmatched pipeline run keeps at most one such row. -/
theorem c8_witness :
    sampleUnmatched.sku = "NAN" ∧
    ((calculate_business_loss sampleWide [] [] none none).countP
      fun r => (List.nil (α := ArrDrrRow)).all
        fun a => decide (cleanId a.variant_id ≠ r.variant_id)) ≤ 1 := by
  constructor
  · exact c8_nan_dedup.2.1 [sampleBase] [] sampleUnmatched (by decide) (by simp)
  · exact c8_nan_dedup.2.2 sampleWide [] [] none none


/-! ## C5: reshaper cardinality on a synthetic wide table -/

/-- The header of a fully-populated synthetic wide sheet: a "Time Stamp"
column followed by a {Status, Inventory} column pair per variant, the
second column of each pair carrying the pandas-generated "Unnamed" label
of a merged header cell. -/
def mkHeader (variants : List String) : List (String × String) :=
  ("Time Stamp", "unnamed: 0") ::
    variants.flatMap fun v => [(v, "Status"), ("Unnamed: 1", "Inventory")]

/-- One fully-populated data row: a timestamp cell and a status/inventory
cell pair per variant. -/
def mkWideRow (variants : List String) (tsStr : String) (t : Nat)
    (stF invF : Nat → String → String) : List (Option String) :=
  some tsStr :: variants.flatMap fun v => [some (stF t v), some (invF t v)]

/-- A synthetic wide table with one row per (timestamp string, parsed
timestamp) pair and no missing cells. -/
def mkWide (variants : List String) (rows : List (String × Nat))
    (stF invF : Nat → String → String) : WideTable :=
  { header := mkHeader variants
    rows := rows.map fun p => mkWideRow variants p.1 p.2 stF invF }

/-- The column names the renaming loop produces for the variant blocks. -/
def varCols (variants : List String) : List String :=
  variants.flatMap fun v => [v ++ "_" ++ "status", v ++ "_" ++ "inventory"]

theorem buildCols_cons (top sub : String) (rest : List (String × String))
    (last : Option String) :
    buildCols ((top, sub) :: rest) last =
      colName (normHdr top) (normHdr sub) (nextLast (normHdr top) last) ::
        buildCols rest (nextLast (normHdr top) last) := rfl

theorem nextLast_ts (last : Option String) :
    nextLast "time stamp" last = last := by
  rw [nextLast, if_neg]
  intro h
  exact h.2 rfl

theorem nextLast_unnamed (last : Option String) :
    nextLast "unnamed: 1" last = last := by
  rw [nextLast, if_neg]
  intro h
  exact absurd h.1 (by decide)

theorem nextLast_variant (v : String) (hu : containsSub "unnamed" v = false)
    (hts : v ≠ "time stamp") (last : Option String) :
    nextLast v last = some v := if_pos ⟨hu, hts⟩

theorem buildCols_ts (rest : List (String × String)) (last : Option String) :
    buildCols (("Time Stamp", "unnamed: 0") :: rest) last =
      "timestamp" :: buildCols rest last := by
  have h1 : normHdr "Time Stamp" = "time stamp" := by decide
  have h2 : normHdr "unnamed: 0" = "unnamed: 0" := by decide
  rw [buildCols_cons, h1, h2, nextLast_ts]
  have hname : colName "time stamp" "unnamed: 0" last = "timestamp" := by
    unfold colName
    rw [if_neg (by decide), if_pos rfl]
  rw [hname]

theorem buildCols_block (v : String) (hv : normHdr v = v) (hne : v ≠ "")
    (hu : containsSub "unnamed" v = false) (hts : v ≠ "time stamp")
    (rest : List (String × String)) (last : Option String) :
    buildCols ((v, "Status") :: ("Unnamed: 1", "Inventory") :: rest) last =
      (v ++ "_" ++ "status") :: (v ++ "_" ++ "inventory") ::
        buildCols rest (some v) := by
  have hst : normHdr "Status" = "status" := by decide
  have hin : normHdr "Inventory" = "inventory" := by decide
  have hun : normHdr "Unnamed: 1" = "unnamed: 1" := by decide
  rw [buildCols_cons, hv, hst, nextLast_variant v hu hts last]
  rw [buildCols_cons, hun, hin, nextLast_unnamed]
  have hn1 : colName v "status" (some v) = v ++ "_" ++ "status" := by
    unfold colName
    rw [if_pos (Or.inl rfl)]
    show (if v = "" then "status" else v ++ "_" ++ "status") = v ++ "_" ++ "status"
    rw [if_neg hne]
  have hn2 : colName "unnamed: 1" "inventory" (some v) = v ++ "_" ++ "inventory" := by
    unfold colName
    rw [if_pos (Or.inr rfl)]
    show (if v = "" then "inventory" else v ++ "_" ++ "inventory") =
      v ++ "_" ++ "inventory"
    rw [if_neg hne]
  rw [hn1, hn2]

theorem buildCols_blocks (variants : List String)
    (hv : ∀ v ∈ variants, normHdr v = v ∧ v ≠ "" ∧
      containsSub "unnamed" v = false ∧ v ≠ "time stamp") :
    ∀ last, buildCols
      (variants.flatMap fun v => [(v, "Status"), ("Unnamed: 1", "Inventory")])
      last = varCols variants := by
  induction variants with
  | nil => intro last; rfl
  | cons v vs ih =>
    intro last
    have hvv := hv v (List.mem_cons_self _ _)
    rw [List.flatMap_cons, List.cons_append, List.cons_append, List.nil_append]
    rw [buildCols_block v hvv.1 hvv.2.1 hvv.2.2.1 hvv.2.2.2 _ last]
    rw [ih (fun u hu => hv u (List.mem_cons_of_mem _ hu)) (some v)]
    simp [varCols]

theorem buildCols_mkHeader (variants : List String)
    (hv : ∀ v ∈ variants, normHdr v = v ∧ v ≠ "" ∧
      containsSub "unnamed" v = false ∧ v ≠ "time stamp") :
    buildCols (mkHeader variants) none = "timestamp" :: varCols variants := by
  rw [mkHeader, buildCols_ts, buildCols_blocks variants hv none]

theorem revSplit_append (xs ys : List Char) (h : '_' ∉ xs) :
    revSplitUnderscore (xs ++ '_' :: ys) = some (xs, ys) := by
  induction xs with
  | nil => simp [revSplitUnderscore]
  | cons c cr ih =>
    rw [List.cons_append, revSplitUnderscore,
      if_neg (fun hc : c = '_' => h (hc ▸ List.mem_cons_self c cr)),
      ih (fun hc => h (List.mem_cons_of_mem c hc))]
    rfl

theorem rsplitLast_append (v w : String) (hw : '_' ∉ w.data) :
    rsplitLast (v ++ "_" ++ w) = (v, some w) := by
  have hdata : (v ++ "_" ++ w).data = v.data ++ '_' :: w.data := by
    rw [String.data_append, String.data_append, List.append_assoc]
    rfl
  have hrev : (v ++ "_" ++ w).data.reverse =
      w.data.reverse ++ '_' :: v.data.reverse := by
    rw [hdata, List.reverse_append, List.reverse_cons, List.append_assoc]
    simp
  rw [rsplitLast, hrev, revSplit_append _ _ (by simpa using hw)]
  simp

theorem rsplit_status (v : String) :
    rsplitLast (v ++ "_" ++ "status") = (v, some "status") :=
  rsplitLast_append v "status" (by decide)

theorem rsplit_inventory (v : String) :
    rsplitLast (v ++ "_" ++ "inventory") = (v, some "inventory") :=
  rsplitLast_append v "inventory" (by decide)

theorem zip_varCols (variants : List String) (t : Nat)
    (stF invF : Nat → String → String) :
    (varCols variants).zip
      (variants.flatMap fun v => [some (stF t v), some (invF t v)]) =
      variants.flatMap fun v =>
        [(v ++ "_" ++ "status", some (stF t v)),
         (v ++ "_" ++ "inventory", some (invF t v))] := by
  induction variants with
  | nil => rfl
  | cons v vs ih =>
    simp only [varCols, List.flatMap_cons, List.cons_append, List.nil_append,
      List.zip_cons_cons, List.cons.injEq, true_and]
    simpa only [varCols] using ih

theorem filterMap_keep (ts : Option Nat) (cs : List String)
    (xs : List (Option String)) (h : ∀ c ∈ cs, c ≠ "timestamp") :
    ((cs.zip xs).filterMap fun cv =>
      if cv.1 = "timestamp" then none else some (ts, cv.1, cv.2)) =
      (cs.zip xs).map fun cv => (ts, cv.1, cv.2) := by
  induction cs generalizing xs with
  | nil => rfl
  | cons c cr ih =>
    cases xs with
    | nil => rfl
    | cons x xr =>
      simp only [List.zip_cons_cons, List.filterMap_cons, List.map_cons,
        if_neg (h c (List.mem_cons_self c cr))]
      rw [ih xr (fun u hu => h u (List.mem_cons_of_mem _ hu))]

/-- The long frame the melt produces on the synthetic table. -/
def longOf (rows : List (String × Nat)) (variants : List String)
    (stF invF : Nat → String → String) :
    List (Option Nat × String × Option String) :=
  rows.flatMap fun p => variants.flatMap fun v =>
    [(some p.2, v ++ "_" ++ "status", some (stF p.2 v)),
     (some p.2, v ++ "_" ++ "inventory", some (invF p.2 v))]

theorem melt_mkWide (variants : List String) (rows : List (String × Nat))
    (stF invF : Nat → String → String)
    (hts : ∀ p ∈ rows, pyToNat p.1 = some p.2)
    (hnm : ∀ c ∈ varCols variants, c ≠ "timestamp") :
    melt ("timestamp" :: varCols variants)
      (rows.map fun p => mkWideRow variants p.1 p.2 stF invF) =
      longOf rows variants stF invF := by
  induction rows with
  | nil => rfl
  | cons p pr ih =>
    rw [List.map_cons, longOf, List.flatMap_cons]
    rw [melt, List.flatMap_cons]
    rw [← melt, ih (fun u hu => hts u (List.mem_cons_of_mem _ hu)), longOf]
    congr 1
    have hidx : indexOfStr "timestamp" ("timestamp" :: varCols variants) = 0 := by
      simp [indexOfStr]
    have hget : (mkWideRow variants p.1 p.2 stF invF)[(0 : Nat)]?.join =
        some p.1 := by
      rw [mkWideRow]
      simp
    have hpts : parseTs (some p.1) = some p.2 := by
      show pyToNat p.1 = some p.2
      exact hts p (List.mem_cons_self _ _)
    rw [hidx, hget, hpts]
    show (("timestamp" :: varCols variants).zip
        (mkWideRow variants p.1 p.2 stF invF)).filterMap (fun cv =>
        if cv.1 = "timestamp" then none else some (some p.2, cv.1, cv.2)) = _
    rw [mkWideRow, List.zip_cons_cons,
      List.filterMap_cons_none (by simp), filterMap_keep _ _ _ hnm,
      zip_varCols, List.map_flatMap]
    simp only [List.map_cons, List.map_nil]

/-- The long frame after the variant/field split, on the synthetic table. -/
def tidyLong (rows : List (String × Nat)) (variants : List String)
    (stF invF : Nat → String → String) : List LongRow :=
  rows.flatMap fun p => variants.flatMap fun v =>
    [{ ts := some p.2, variant := v, field := some "status",
       value := some (stF p.2 v) },
     { ts := some p.2, variant := v, field := some "inventory",
       value := some (invF p.2 v) }]

theorem split_longOf (rows : List (String × Nat)) (variants : List String)
    (stF invF : Nat → String → String) :
    ((longOf rows variants stF invF).map fun x =>
      { ts := x.1, variant := (rsplitLast x.2.1).1,
        field := (rsplitLast x.2.1).2, value := x.2.2 : LongRow }) =
      tidyLong rows variants stF invF := by
  rw [longOf, tidyLong, List.map_flatMap]
  refine List.flatMap_congr ?_
  intro p _
  rw [List.map_flatMap]
  refine List.flatMap_congr ?_
  intro v _
  simp only [List.map_cons, List.map_nil, rsplit_status, rsplit_inventory]

theorem keys_inner (variants : List String) (t : Nat)
    (sv iv : String → Option String) :
    ((variants.flatMap fun v =>
      ([{ ts := some t, variant := v, field := some "status", value := sv v },
        { ts := some t, variant := v, field := some "inventory",
          value := iv v }] : List LongRow)).filterMap fun l =>
      l.ts.map fun u => (u, l.variant)) =
      variants.flatMap fun v => [(t, v), (t, v)] := by
  induction variants with
  | nil => rfl
  | cons v vs ih =>
    rw [List.flatMap_cons, List.flatMap_cons, List.filterMap_append, ih]
    rfl

theorem keys_tidyLong (rows : List (String × Nat)) (variants : List String)
    (stF invF : Nat → String → String) :
    ((tidyLong rows variants stF invF).filterMap fun l =>
      l.ts.map fun t => (t, l.variant)) =
      rows.flatMap fun p => variants.flatMap fun v => [(p.2, v), (p.2, v)] := by
  rw [tidyLong]
  induction rows with
  | nil => rfl
  | cons p pr ih =>
    rw [List.flatMap_cons, List.flatMap_cons, List.filterMap_append, ih]
    congr 1
    exact keys_inner variants p.2 (fun v => some (stF p.2 v))
      (fun v => some (invF p.2 v))

theorem mem_keys (rows : List (String × Nat)) (variants : List String)
    (t : Nat) (v : String)
    (h : (t, v) ∈ rows.flatMap fun p =>
      variants.flatMap fun u => [(p.2, u), (p.2, u)]) :
    t ∈ rows.map Prod.snd ∧ v ∈ variants := by
  simp only [List.mem_flatMap, List.mem_cons, List.not_mem_nil, or_false,
    Prod.mk.injEq] at h
  obtain ⟨p, hp, u, hu, hc⟩ := h
  rcases hc with ⟨h1, h2⟩ | ⟨h1, h2⟩ <;>
    exact ⟨List.mem_map.mpr ⟨p, hp, h1.symm⟩, h2 ▸ hu⟩

theorem keys_dedup_length (rows : List (String × Nat)) (variants : List String)
    (htnd : (rows.map Prod.snd).Nodup) (hnd : variants.Nodup) :
    ((rows.flatMap fun p =>
      variants.flatMap fun v => [(p.2, v), (p.2, v)]).dedup).length =
      rows.length * variants.length := by
  have hset : (rows.flatMap fun p =>
      variants.flatMap fun v => [(p.2, v), (p.2, v)]).toFinset =
      ((rows.map Prod.snd) ×ˢ variants).toFinset := by
    ext x
    obtain ⟨t, v⟩ := x
    simp only [List.mem_toFinset, List.mem_product]
    constructor
    · intro h
      exact mem_keys rows variants t v h
    · rintro ⟨ht, hv⟩
      obtain ⟨p, hp, hpt⟩ := List.mem_map.mp ht
      simp only [List.mem_flatMap, List.mem_cons]
      exact ⟨p, hp, v, hv, Or.inl (by rw [hpt])⟩
  have h1 : ((rows.flatMap fun p =>
      variants.flatMap fun v => [(p.2, v), (p.2, v)]).dedup).length =
      (rows.flatMap fun p =>
        variants.flatMap fun v => [(p.2, v), (p.2, v)]).toFinset.card :=
    (List.card_toFinset _).symm
  rw [h1, hset, List.toFinset_card_of_nodup (htnd.product hnd),
    List.length_product, List.length_map]

theorem filter_flatMap (l : List (String × Nat)) (g : String × Nat → List LongRow)
    (p : LongRow → Bool) :
    (l.flatMap g).filter p = l.flatMap fun a => (g a).filter p := by
  induction l with
  | nil => rfl
  | cons a l ih =>
    rw [List.flatMap_cons, List.flatMap_cons, List.filter_append, ih]

theorem filter_flatMap_inner (l : List String) (g : String → List LongRow)
    (p : LongRow → Bool) :
    (l.flatMap g).filter p = l.flatMap fun a => (g a).filter p := by
  induction l with
  | nil => rfl
  | cons a l ih =>
    rw [List.flatMap_cons, List.flatMap_cons, List.filter_append, ih]

theorem filter_block_status (p2 : Nat) (u : String) (t : Nat) (v : String)
    (sv iv : Option String) :
    (([{ ts := some p2, variant := u, field := some "status", value := sv },
       { ts := some p2, variant := u, field := some "inventory", value := iv }] :
      List LongRow).filter fun l =>
        decide (l.ts = some t ∧ l.variant = v ∧ l.field = some "status")) =
      if p2 = t ∧ u = v then
        [{ ts := some p2, variant := u, field := some "status", value := sv }]
      else [] := by
  by_cases h : p2 = t ∧ u = v
  · rw [if_pos h]
    simp only [List.filter_cons, List.filter_nil]
    rw [if_pos (by simp [h.1, h.2]), if_neg (by simp)]
  · rw [if_neg h]
    simp only [List.filter_cons, List.filter_nil]
    rw [if_neg (by simp; intro h1 h2; exact absurd ⟨h1, h2⟩ h), if_neg (by simp)]

theorem filter_block_inventory (p2 : Nat) (u : String) (t : Nat) (v : String)
    (sv iv : Option String) :
    (([{ ts := some p2, variant := u, field := some "status", value := sv },
       { ts := some p2, variant := u, field := some "inventory", value := iv }] :
      List LongRow).filter fun l =>
        decide (l.ts = some t ∧ l.variant = v ∧ l.field = some "inventory")) =
      if p2 = t ∧ u = v then
        [{ ts := some p2, variant := u, field := some "inventory", value := iv }]
      else [] := by
  by_cases h : p2 = t ∧ u = v
  · rw [if_pos h]
    simp only [List.filter_cons, List.filter_nil]
    rw [if_neg (by simp), if_pos (by simp [h.1, h.2])]
  · rw [if_neg h]
    simp only [List.filter_cons, List.filter_nil]
    rw [if_neg (by simp), if_neg (by simp; intro h1 h2; exact absurd ⟨h1, h2⟩ h)]

theorem inner_status_miss (variants : List String) (p2 : Nat) (t : Nat)
    (v : String) (sv iv : String → Option String) (hp : p2 ≠ t) :
    (variants.flatMap fun u =>
      (([{ ts := some p2, variant := u, field := some "status", value := sv u },
         { ts := some p2, variant := u, field := some "inventory",
           value := iv u }] : List LongRow).filter fun l =>
        decide (l.ts = some t ∧ l.variant = v ∧ l.field = some "status"))) =
      [] := by
  induction variants with
  | nil => rfl
  | cons u us ih =>
    rw [List.flatMap_cons, filter_block_status,
      if_neg (fun hc => hp hc.1), List.nil_append, ih]

theorem inner_inventory_miss (variants : List String) (p2 : Nat) (t : Nat)
    (v : String) (sv iv : String → Option String) (hp : p2 ≠ t) :
    (variants.flatMap fun u =>
      (([{ ts := some p2, variant := u, field := some "status", value := sv u },
         { ts := some p2, variant := u, field := some "inventory",
           value := iv u }] : List LongRow).filter fun l =>
        decide (l.ts = some t ∧ l.variant = v ∧ l.field = some "inventory"))) =
      [] := by
  induction variants with
  | nil => rfl
  | cons u us ih =>
    rw [List.flatMap_cons, filter_block_inventory,
      if_neg (fun hc => hp hc.1), List.nil_append, ih]

theorem inner_status_skip (us : List String) (t : Nat) (v : String)
    (hnv : v ∉ us) (sv iv : String → Option String) :
    (us.flatMap fun w =>
      (([{ ts := some t, variant := w, field := some "status", value := sv w },
         { ts := some t, variant := w, field := some "inventory",
           value := iv w }] : List LongRow).filter fun l =>
        decide (l.ts = some t ∧ l.variant = v ∧ l.field = some "status"))) =
      [] := by
  induction us with
  | nil => rfl
  | cons w ws ih =>
    have hwv : w ≠ v := fun hc => hnv (by rw [← hc]; exact List.mem_cons_self _ _)
    rw [List.flatMap_cons, filter_block_status, if_neg (fun hc => hwv hc.2),
      List.nil_append, ih (fun hc => hnv (List.mem_cons_of_mem _ hc))]

theorem inner_inventory_skip (us : List String) (t : Nat) (v : String)
    (hnv : v ∉ us) (sv iv : String → Option String) :
    (us.flatMap fun w =>
      (([{ ts := some t, variant := w, field := some "status", value := sv w },
         { ts := some t, variant := w, field := some "inventory",
           value := iv w }] : List LongRow).filter fun l =>
        decide (l.ts = some t ∧ l.variant = v ∧ l.field = some "inventory"))) =
      [] := by
  induction us with
  | nil => rfl
  | cons w ws ih =>
    have hwv : w ≠ v := fun hc => hnv (by rw [← hc]; exact List.mem_cons_self _ _)
    rw [List.flatMap_cons, filter_block_inventory, if_neg (fun hc => hwv hc.2),
      List.nil_append, ih (fun hc => hnv (List.mem_cons_of_mem _ hc))]

theorem inner_status_hit (variants : List String) (hnd : variants.Nodup)
    (t : Nat) (v : String) (hv : v ∈ variants) (sv iv : String → Option String) :
    (variants.flatMap fun u =>
      (([{ ts := some t, variant := u, field := some "status", value := sv u },
         { ts := some t, variant := u, field := some "inventory",
           value := iv u }] : List LongRow).filter fun l =>
        decide (l.ts = some t ∧ l.variant = v ∧ l.field = some "status"))) =
      [{ ts := some t, variant := v, field := some "status", value := sv v }] := by
  induction variants with
  | nil => exact absurd hv (List.not_mem_nil v)
  | cons u us ih =>
    obtain ⟨hnu, hnus⟩ := List.nodup_cons.mp hnd
    rw [List.flatMap_cons, filter_block_status]
    by_cases huv : u = v
    · rw [if_pos ⟨rfl, huv⟩, huv, List.cons_append, List.nil_append,
        inner_status_skip us t v (huv ▸ hnu) sv iv]
    · have hvus : v ∈ us := by
        rcases List.mem_cons.mp hv with hc | hc
        · exact absurd hc.symm huv
        · exact hc
      rw [if_neg (fun hc => huv hc.2), List.nil_append, ih hnus hvus]

theorem inner_inventory_hit (variants : List String) (hnd : variants.Nodup)
    (t : Nat) (v : String) (hv : v ∈ variants) (sv iv : String → Option String) :
    (variants.flatMap fun u =>
      (([{ ts := some t, variant := u, field := some "status", value := sv u },
         { ts := some t, variant := u, field := some "inventory",
           value := iv u }] : List LongRow).filter fun l =>
        decide (l.ts = some t ∧ l.variant = v ∧ l.field = some "inventory"))) =
      [{ ts := some t, variant := v, field := some "inventory",
         value := iv v }] := by
  induction variants with
  | nil => exact absurd hv (List.not_mem_nil v)
  | cons u us ih =>
    obtain ⟨hnu, hnus⟩ := List.nodup_cons.mp hnd
    rw [List.flatMap_cons, filter_block_inventory]
    by_cases huv : u = v
    · rw [if_pos ⟨rfl, huv⟩, huv, List.cons_append, List.nil_append,
        inner_inventory_skip us t v (huv ▸ hnu) sv iv]
    · have hvus : v ∈ us := by
        rcases List.mem_cons.mp hv with hc | hc
        · exact absurd hc.symm huv
        · exact hc
      rw [if_neg (fun hc => huv hc.2), List.nil_append, ih hnus hvus]

theorem rows_status_skip (variants : List String)
    (stF invF : Nat → String → String) (t : Nat) (v : String) :
    ∀ pr : List (String × Nat), t ∉ pr.map Prod.snd →
    ((pr.flatMap fun q => variants.flatMap fun u =>
      ([{ ts := some q.2, variant := u, field := some "status",
          value := some (stF q.2 u) },
        { ts := some q.2, variant := u, field := some "inventory",
          value := some (invF q.2 u) }] : List LongRow)).filter fun l =>
      decide (l.ts = some t ∧ l.variant = v ∧ l.field = some "status")) = [] := by
  intro pr
  induction pr with
  | nil => intro _; rfl
  | cons q qr ih =>
    intro hnt
    rw [List.map_cons] at hnt
    have hq : q.2 ≠ t := fun hc => hnt (by rw [← hc]; exact List.mem_cons_self _ _)
    rw [List.flatMap_cons, List.filter_append, filter_flatMap_inner,
      inner_status_miss variants q.2 t v _ _ hq, List.nil_append,
      ih (fun hc => hnt (List.mem_cons_of_mem _ hc))]

theorem rows_inventory_skip (variants : List String)
    (stF invF : Nat → String → String) (t : Nat) (v : String) :
    ∀ pr : List (String × Nat), t ∉ pr.map Prod.snd →
    ((pr.flatMap fun q => variants.flatMap fun u =>
      ([{ ts := some q.2, variant := u, field := some "status",
          value := some (stF q.2 u) },
        { ts := some q.2, variant := u, field := some "inventory",
          value := some (invF q.2 u) }] : List LongRow)).filter fun l =>
      decide (l.ts = some t ∧ l.variant = v ∧ l.field = some "inventory")) =
      [] := by
  intro pr
  induction pr with
  | nil => intro _; rfl
  | cons q qr ih =>
    intro hnt
    rw [List.map_cons] at hnt
    have hq : q.2 ≠ t := fun hc => hnt (by rw [← hc]; exact List.mem_cons_self _ _)
    rw [List.flatMap_cons, List.filter_append, filter_flatMap_inner,
      inner_inventory_miss variants q.2 t v _ _ hq, List.nil_append,
      ih (fun hc => hnt (List.mem_cons_of_mem _ hc))]

theorem filter_tidyLong_status (variants : List String)
    (stF invF : Nat → String → String) (t : Nat) (v : String)
    (hnd : variants.Nodup) (hv : v ∈ variants) :
    ∀ rows : List (String × Nat), (rows.map Prod.snd).Nodup →
      t ∈ rows.map Prod.snd →
    ((tidyLong rows variants stF invF).filter fun l =>
      decide (l.ts = some t ∧ l.variant = v ∧ l.field = some "status")) =
      [{ ts := some t, variant := v, field := some "status",
         value := some (stF t v) }] := by
  intro rows
  induction rows with
  | nil => intro _ ht; exact absurd ht (List.not_mem_nil t)
  | cons p pr ih =>
    intro htnd ht
    rw [List.map_cons, List.nodup_cons] at htnd
    rw [tidyLong, List.flatMap_cons, List.filter_append, filter_flatMap_inner]
    by_cases hp : p.2 = t
    · subst hp
      rw [inner_status_hit variants hnd p.2 v hv _ _,
        rows_status_skip variants stF invF p.2 v pr htnd.1]
      rfl
    · rw [inner_status_miss variants p.2 t v _ _ hp, List.nil_append]
      have ht2 : t ∈ pr.map Prod.snd := by
        rw [List.map_cons] at ht
        rcases List.mem_cons.mp ht with hc | hc
        · exact absurd hc.symm hp
        · exact hc
      have := ih htnd.2 ht2
      rw [tidyLong] at this
      exact this

theorem filter_tidyLong_inventory (variants : List String)
    (stF invF : Nat → String → String) (t : Nat) (v : String)
    (hnd : variants.Nodup) (hv : v ∈ variants) :
    ∀ rows : List (String × Nat), (rows.map Prod.snd).Nodup →
      t ∈ rows.map Prod.snd →
    ((tidyLong rows variants stF invF).filter fun l =>
      decide (l.ts = some t ∧ l.variant = v ∧ l.field = some "inventory")) =
      [{ ts := some t, variant := v, field := some "inventory",
         value := some (invF t v) }] := by
  intro rows
  induction rows with
  | nil => intro _ ht; exact absurd ht (List.not_mem_nil t)
  | cons p pr ih =>
    intro htnd ht
    rw [List.map_cons, List.nodup_cons] at htnd
    rw [tidyLong, List.flatMap_cons, List.filter_append, filter_flatMap_inner]
    by_cases hp : p.2 = t
    · subst hp
      rw [inner_inventory_hit variants hnd p.2 v hv _ _,
        rows_inventory_skip variants stF invF p.2 v pr htnd.1]
      rfl
    · rw [inner_inventory_miss variants p.2 t v _ _ hp, List.nil_append]
      have ht2 : t ∈ pr.map Prod.snd := by
        rw [List.map_cons] at ht
        rcases List.mem_cons.mp ht with hc | hc
        · exact absurd hc.symm hp
        · exact hc
      have := ih htnd.2 ht2
      rw [tidyLong] at this
      exact this

theorem firstVal_status (rows : List (String × Nat)) (variants : List String)
    (stF invF : Nat → String → String) (t : Nat) (v : String)
    (htnd : (rows.map Prod.snd).Nodup) (hnd : variants.Nodup)
    (ht : t ∈ rows.map Prod.snd) (hv : v ∈ variants) :
    firstVal (tidyLong rows variants stF invF) t v "status" =
      some (stF t v) := by
  rw [firstVal, filter_tidyLong_status variants stF invF t v hnd hv rows htnd ht]
  rfl

theorem firstVal_inventory (rows : List (String × Nat)) (variants : List String)
    (stF invF : Nat → String → String) (t : Nat) (v : String)
    (htnd : (rows.map Prod.snd).Nodup) (hnd : variants.Nodup)
    (ht : t ∈ rows.map Prod.snd) (hv : v ∈ variants) :
    firstVal (tidyLong rows variants stF invF) t v "inventory" =
      some (invF t v) := by
  rw [firstVal,
    filter_tidyLong_inventory variants stF invF t v hnd hv rows htnd ht]
  rfl

/-- C5: on a synthetic wide table with V distinct non-empty variant
labels and T timestamps and no missing cells, the reshaper returns
exactly V*T tidy rows — one per
observed (timestamp, variant) pair — every returned row's timestamp and
variant come from the input (no fabricated rows), and each row carries
the non-null status and inventory cells of its (timestamp, variant) pair
(the lower-cased status string and the numeric coercion of the inventory
cell), never the missing-value fallbacks. -/
theorem c5_reshaper_cardinality (variants : List String)
    (rows : List (String × Nat)) (stF invF : Nat → String → String)
    (hv : ∀ v ∈ variants, normHdr v = v ∧ v ≠ "" ∧
      containsSub "unnamed" v = false ∧
      v ≠ "time stamp" ∧ v ++ "_" ++ "status" ≠ "timestamp" ∧
      v ++ "_" ++ "inventory" ≠ "timestamp")
    (hnd : variants.Nodup)
    (hts : ∀ p ∈ rows, pyToNat p.1 = some p.2)
    (htnd : (rows.map Prod.snd).Nodup) :
    (reshape_inventory (mkWide variants rows stF invF) none none).length =
      rows.length * variants.length ∧
    ∀ r ∈ reshape_inventory (mkWide variants rows stF invF) none none,
      r.timestamp ∈ rows.map Prod.snd ∧ r.variant_id ∈ variants ∧
      r.status = lowerStr (stF r.timestamp r.variant_id) ∧
      r.inventory = parseNum (some (invF r.timestamp r.variant_id)) := by
  have hnm : ∀ c ∈ varCols variants, c ≠ "timestamp" := by
    intro c hc
    simp only [varCols, List.mem_flatMap, List.mem_cons, List.not_mem_nil,
      or_false] at hc
    obtain ⟨v, hvm, hcv⟩ := hc
    rcases hcv with h1 | h1
    · rw [h1]; exact (hv v hvm).2.2.2.2.1
    · rw [h1]; exact (hv v hvm).2.2.2.2.2
  have hcols : buildCols (mkWide variants rows stF invF).header none =
      "timestamp" :: varCols variants :=
    buildCols_mkHeader variants
      (fun v hvm =>
        ⟨(hv v hvm).1, (hv v hvm).2.1, (hv v hvm).2.2.1, (hv v hvm).2.2.2.1⟩)
  have hre : reshape_inventory (mkWide variants rows stF invF) none none =
      pivotTidy (tidyLong rows variants stF invF) := by
    show (pivotTidy
        ((melt (buildCols (mkWide variants rows stF invF).header none)
          (mkWide variants rows stF invF).rows).map fun x =>
          { ts := x.1, variant := (rsplitLast x.2.1).1,
            field := (rsplitLast x.2.1).2, value := x.2.2 })).filter
        (fun r => keepDate none none r.date) = _
    rw [hcols]
    have hrows : (mkWide variants rows stF invF).rows =
        rows.map fun p => mkWideRow variants p.1 p.2 stF invF := rfl
    rw [hrows, melt_mkWide variants rows stF invF hts hnm, split_longOf]
    rw [List.filter_eq_self.mpr]
    intro r _
    rfl
  have hlen : (pivotTidy (tidyLong rows variants stF invF)).length =
      rows.length * variants.length := by
    rw [pivotTidy, List.length_map, keys_tidyLong,
      keys_dedup_length rows variants htnd hnd]
  refine ⟨by rw [hre]; exact hlen, ?_⟩
  intro r hr
  rw [hre, pivotTidy] at hr
  obtain ⟨q, hk, hrk⟩ := List.mem_map.mp hr
  obtain ⟨t, v⟩ := q
  rw [keys_tidyLong] at hk
  have hk2 := List.mem_dedup.mp hk
  have hmem := mem_keys rows variants t v hk2
  rw [← hrk]
  refine ⟨hmem.1, hmem.2, ?_, ?_⟩
  · show lowerStr ((firstVal (tidyLong rows variants stF invF) t v
      "status").getD "nan") = lowerStr (stF t v)
    rw [firstVal_status rows variants stF invF t v htnd hnd hmem.1 hmem.2]
    rfl
  · show parseNum (firstVal (tidyLong rows variants stF invF) t v
      "inventory") = parseNum (some (invF t v))
    rw [firstVal_inventory rows variants stF invF t v htnd hnd hmem.1 hmem.2]

/-- Witness for C5: a concrete 2-variant, 2-timestamp sheet reshapes to
exactly 4 tidy rows. -/
theorem c5_witness :
    (reshape_inventory
      (mkWide ["va", "vb"] [("0", 0), ("86400", 86400)]
        (fun _ _ => "Active") (fun _ _ => "5")) none none).length = 2 * 2 :=
  (c5_reshaper_cardinality ["va", "vb"] [("0", 0), ("86400", 86400)]
    (fun _ _ => "Active") (fun _ _ => "5")
    (by decide) (by decide) (by decide) (by decide)).1
